import Mathlib

/-!
Verification of the rust-code-analysis-check GitHub action (TypeScript sources:
src/check.ts, src/main.ts, src/input.ts, src/rcacli.ts) against its
natural-language specification.  The embedding below is a shallow translation
of the current `CheckRunner` class and of `run` in main.ts: the mutable fields
of `CheckRunner` become an explicit `CheckState`, the remote `checks.create` /
`checks.update` calls become a trace of issued requests, and JavaScript
exceptions become explicit flags / error values.
-/

set_option maxHeartbeats 1000000
set_option maxRecDepth 16384

namespace RcaCheck

/-- The `cyclomatic` group of the Metrics interface (check.ts). -/
structure Cyclomatic where
  sum : Int
  average : Int
deriving DecidableEq

/-- The `halstead` group of the Metrics interface (check.ts). -/
structure Halstead where
  n1 : Int
  N1 : Int
  n2 : Int
  N2 : Int
  length : Int
  estimated_program_length : Int
  purity_ratio : Int
  vocabulary : Int
  volume : Int
  difficulty : Int
  level : Int
  effort : Int
  time : Int
  bugs : Int
deriving DecidableEq

/-- The `loc` group of the Metrics interface (check.ts). -/
structure Loc where
  sloc : Int
  ploc : Int
  lloc : Int
  cloc : Int
  blank : Int
deriving DecidableEq

/-- The `nom` group of the Metrics interface (check.ts). -/
structure Nom where
  functions : Int
  closures : Int
  total : Int
deriving DecidableEq

/-- The `mi` group of the Metrics interface (check.ts). -/
structure Mi where
  mi_original : Int
  mi_sei : Int
  mi_visual_studio : Int
deriving DecidableEq

/-- The Metrics interface of check.ts.  The JavaScript numbers are modelled as
integers; the check core only formats them, it never computes with them. -/
structure Metrics where
  nargs : Int
  nexits : Int
  cognitive : Int
  cyclomatic : Cyclomatic
  halstead : Halstead
  loc : Loc
  nom : Nom
  mi : Mi
deriving DecidableEq

mutual

/-- The RcaFile interface of check.ts: one JSON object emitted by
rust-code-analysis-cli.  Its `spaces` field is a JSON array whose elements
`makeAnnotations` feeds to `JSON.parse`, so an element is modelled by what
that call does with it (`SpaceElem`). -/
inductive RcaFile where
  | mk (name : String) (start_line : Int) (end_line : Int) (kind : String)
      (metrics : Metrics) (spaces : Spaces)

/-- The `spaces` JSON array of an RcaFile, as an explicit list. -/
inductive Spaces where
  | nil
  | cons (e : SpaceElem) (rest : Spaces)

/-- One element of a `spaces` array, classified by what
`JSON.parse(space)` in `makeAnnotations` does with it:
`strOk r` is a JSON string whose contents parse to the record `r`;
`strBad s` is a JSON string that `JSON.parse` rejects (it throws);
`objVal r` is a JSON object — `JSON.parse` coerces it to the text
"[object Object]" and throws a SyntaxError. -/
inductive SpaceElem where
  | strOk (r : RcaFile)
  | strBad (s : String)
  | objVal (r : RcaFile)

end

/-- Field accessor: `name` of an RcaFile. -/
def RcaFile.name : RcaFile → String
  | .mk n _ _ _ _ _ => n

/-- Field accessor: `start_line` of an RcaFile. -/
def RcaFile.start_line : RcaFile → Int
  | .mk _ s _ _ _ _ => s

/-- Field accessor: `end_line` of an RcaFile. -/
def RcaFile.end_line : RcaFile → Int
  | .mk _ _ e _ _ _ => e

/-- Field accessor: `kind` of an RcaFile. -/
def RcaFile.kind : RcaFile → String
  | .mk _ _ _ k _ _ => k

/-- Field accessor: `metrics` of an RcaFile. -/
def RcaFile.metrics : RcaFile → Metrics
  | .mk _ _ _ _ m _ => m

/-- Field accessor: `spaces` of an RcaFile. -/
def RcaFile.spaces : RcaFile → Spaces
  | .mk _ _ _ _ _ s => s

/-- `.length` of a `spaces` JSON array. -/
def Spaces.length : Spaces → Nat
  | .nil => 0
  | .cons _ rest => rest.length + 1

/-- One GitHub check-run annotation object as built by `addAnnotation`
(check.ts): `{path, start_line, end_line, annotation_level, title, message}`. -/
structure Annot where
  path : String
  start_line : Int
  end_line : Int
  annotation_level : String
  title : String
  message : String
deriving DecidableEq

/-- `getAnnotationMetrics` (check.ts lines 357-364): the body returns the
literal string "Hello"; the markdown rendering of the metrics is commented
out in the source, so the argument is unused. -/
def getAnnotationMetrics (_metrics : Metrics) : String :=
  "Hello"

/-- The annotation object built by `addAnnotation` (check.ts lines 317-331)
from the space record it receives. -/
def mkAnnot (contents : RcaFile) : Annot :=
  { path := contents.name
    start_line := contents.start_line
    end_line := contents.end_line
    annotation_level := "notice"
    title := contents.name
    message := getAnnotationMetrics contents.metrics }

/-- `getMetrics` (check.ts lines 367-420): the markdown template for one
metrics bundle, transcribed from the template literal. -/
def getMetrics (metrics : Metrics) : String :=
  "Nargs: " ++ toString metrics.nargs ++
  "\n\n  Nexits: " ++ toString metrics.nexits ++
  "\n\n  Cognitive: " ++ toString metrics.cognitive ++
  "\n  <details>\n  <summary>Cyclomatic</summary>\n\n  - Sum: " ++
  toString metrics.cyclomatic.sum ++
  "\n  - Average: " ++ toString metrics.cyclomatic.average ++
  "\n  </details>\n  <details>\n  <summary>Loc</summary>\n\n  - Sloc: " ++
  toString metrics.loc.sloc ++
  "\n  - Ploc: " ++ toString metrics.loc.ploc ++
  "\n  - Lloc: " ++ toString metrics.loc.lloc ++
  "\n  - Cloc: " ++ toString metrics.loc.cloc ++
  "\n  - Blank: " ++ toString metrics.loc.blank ++
  "\n  </details>\n  <details>\n  <summary>Nom</summary>\n\n  - Functions: " ++
  toString metrics.nom.functions ++
  "\n  - Closures: " ++ toString metrics.nom.closures ++
  "\n  - Total: " ++ toString metrics.nom.total ++
  "\n  </details>\n  <details>\n  <summary>Halstead</summary>\n\n  - n1: " ++
  toString metrics.halstead.n1 ++
  "\n  - N1: " ++ toString metrics.halstead.N1 ++
  "\n  - n2: " ++ toString metrics.halstead.n2 ++
  "\n  - N2: " ++ toString metrics.halstead.N2 ++
  "\n  - Length: " ++ toString metrics.halstead.length ++
  "\n  - Estimated program length: " ++
  toString metrics.halstead.estimated_program_length ++
  "\n  - Purity ratio: " ++ toString metrics.halstead.purity_ratio ++
  "\n  - Vocabulary: " ++ toString metrics.halstead.vocabulary ++
  "\n  - Volume: " ++ toString metrics.halstead.volume ++
  "\n  - Difficulty: " ++ toString metrics.halstead.difficulty ++
  "\n  - Level: " ++ toString metrics.halstead.level ++
  "\n  - Effort: " ++ toString metrics.halstead.effort ++
  "\n  - Time: " ++ toString metrics.halstead.time ++
  "\n  - Bugs: " ++ toString metrics.halstead.bugs ++
  "\n  </details>\n  <details>\n  <summary>Maintainability Index</summary>\n\n  - Original: " ++
  toString metrics.mi.mi_original ++
  "\n  - Visual studio: " ++ toString metrics.mi.mi_visual_studio ++
  "\n  - Sei: " ++ toString metrics.mi.mi_sei ++
  "\n  </details>"

/-- `getFileMetrics` (check.ts lines 348-354): the rendered report block for
one top-level file record.  Note that it renders only the record's name and
the record's own metrics; the `spaces` field is not used. -/
def getFileMetrics (contents : RcaFile) : String :=
  "<details>\n<summary><b>" ++ contents.name ++ "</b></summary>\n\n" ++
  getMetrics contents.metrics ++ "\n</details>"

/-- `getText` (check.ts lines 336-345): the full report text from the
version label and the accumulated per-file blocks. -/
def getText (file_metrics : List String) (rcaVersion : String) : String :=
  "## Info\n|          Name          |    Version    |\n|:----------------------:|:-------------:|\n| rust-code-analysis-cli | " ++
  rcaVersion ++ " |\n\n## Results\n\n" ++
  String.intercalate "\n" file_metrics

/-- The `spaces` field of a record is structurally smaller than the record;
used for the termination of the tree walks below. -/
theorem sizeOf_spaces_lt (r : RcaFile) : sizeOf r.spaces < sizeOf r := by
  cases r with
  | mk n s e k m sp =>
    simp [RcaFile.spaces]

mutual

/-- `makeAnnotations` (check.ts lines 295-314).  `acc` is the mutable
`this.annotations` array; the Bool records whether a `JSON.parse(space)`
call threw (that call sits outside the try/catch of `parseJson`, so the
exception propagates).  On a throw the annotations already pushed stay in
the array, exactly as with the in-place mutation of the source. -/
def makeAnnotations : RcaFile → List Annot → List Annot × Bool
  | .mk _ _ _ _ _ ss, acc => makeAnnotationsOver ss acc

/-- The `for (const space of contents.spaces)` loop body of
`makeAnnotations`, one element at a time: `JSON.parse` the element (a
string element that parses yields its record, anything else throws), push
its annotation, recurse into its subspaces when it has any. -/
def makeAnnotationsOver : Spaces → List Annot → List Annot × Bool
  | .nil, acc => (acc, false)
  | .cons (.strOk space_obj) rest, acc =>
    let acc1 := acc ++ [mkAnnot space_obj]
    if space_obj.spaces.length > 0 then
      match makeAnnotations space_obj acc1 with
      | (acc2, true) => (acc2, true)
      | (acc2, false) => makeAnnotationsOver rest acc2
    else
      makeAnnotationsOver rest acc1
  | .cons (.strBad _) _, acc => (acc, true)
  | .cons (.objVal _) _, acc => (acc, true)

end

/-- `makeAnnotations` iterates over the `spaces` field of its argument. -/
theorem makeAnnotations_eq (r : RcaFile) (acc : List Annot) :
    makeAnnotations r acc = makeAnnotationsOver r.spaces acc := by
  cases r
  rfl

/-- One entry of the `this.file_jsons` array: whatever `JSON.parse`
returned for a line that parsed.  A value of the full record shape is
`record r`; any other JSON value (an object missing record fields, an array,
a string, a number, null) is `nonRec`, identified by its source text —
the source pushes it unexamined. -/
inductive FileJson where
  | record (r : RcaFile)
  | nonRec (s : String)

/-- The mutable fields of the `CheckRunner` class (check.ts lines 78-91). -/
structure CheckState where
  annotations : List Annot
  file_metrics : List String
  file_jsons : List FileJson

/-- The state of a freshly constructed `CheckRunner`. -/
def emptyState : CheckState :=
  { annotations := [], file_metrics := [], file_jsons := [] }

/-- One line of rust-code-analysis-cli output, classified by what
`parseJson` does with it.
`invalid s`: `JSON.parse(file)` throws, the catch branch runs.
`jsonNonRecord s`: the text parses as JSON but the value has no usable
`metrics` bundle (for example "\x7b\x7d"): rendering the block then
dereferences an undefined `metrics` field and throws a TypeError.
`jsonNoSpaces s nm mt`: the value carries a name and a full metrics bundle
(so its block renders) but no `spaces` array: `contents.spaces.length`
then throws a TypeError.
`valid r`: the text parses to the full record `r`. -/
inductive Line where
  | invalid (s : String)
  | jsonNonRecord (s : String)
  | jsonNoSpaces (s : String) (nm : String) (mt : Metrics)
  | valid (r : RcaFile)

/-- `parseJson` (check.ts lines 94-114).  The Bool records whether an
exception escaped the method: only the top-level `JSON.parse(file)`
failure is caught (the line is discarded); everything after it runs
outside the try/catch.  So a JSON value without a metrics bundle is pushed
to `file_jsons` and THEN throws while `getFileMetrics` renders it (before
the `file_metrics` push); a value that renders but has no `spaces` array
throws after both pushes; and a `makeAnnotations` throw propagates with
the annotations already pushed staying in the array — each exactly as with
the in-place mutation of the source.  The block a `jsonNoSpaces` value
renders uses only its name and metrics, which `getFileMetrics` of a record
with those fields reproduces verbatim. -/
def parseJson (st : CheckState) (line : Line) : CheckState × Bool :=
  match line with
  | .invalid _ => (st, false)
  | .jsonNonRecord s =>
    ({ st with file_jsons := st.file_jsons ++ [.nonRec s] }, true)
  | .jsonNoSpaces s nm mt =>
    ({ st with
       file_jsons := st.file_jsons ++ [.nonRec s]
       file_metrics :=
         st.file_metrics ++ [getFileMetrics (.mk nm 0 0 "" mt .nil)] }, true)
  | .valid contents =>
    let st1 : CheckState :=
      { st with
        file_jsons := st.file_jsons ++ [.record contents]
        file_metrics := st.file_metrics ++ [getFileMetrics contents] }
    if contents.spaces.length > 0 then
      match makeAnnotations contents st1.annotations with
      | (anns, threw) => ({ st1 with annotations := anns }, threw)
    else
      (st1, false)

/-- The stdline listener loop of main.ts (lines 44-52): feed each line to
`parseJson`, stopping when an exception escapes it. -/
def processLines (st : CheckState) : List Line → CheckState × Bool
  | [] => (st, false)
  | l :: rest =>
    match parseJson st l with
    | (st1, true) => (st1, true)
    | (st1, false) => processLines st1 rest

/-- The loop of `getBucket` (check.ts lines 268-282): up to `fuel` times,
`pop()` the last element of `pending` and push it onto `bucket`; stop early
when `pop()` returns undefined.  Returns the bucket and what is left of the
`this.annotations` array. -/
def getBucketGo : Nat → List Annot → List Annot → List Annot × List Annot
  | 0, bucket, pending => (bucket, pending)
  | fuel + 1, bucket, pending =>
    match pending.getLast? with
    | none => (bucket, pending)
    | some a => getBucketGo fuel (bucket ++ [a]) pending.dropLast

/-- `getBucket` (check.ts lines 268-282): a bucket of at most 50 annotations,
popped one by one from the END of the pending array. -/
def getBucket (pending : List Annot) : List Annot × List Annot :=
  getBucketGo 50 [] pending

/-- What `getBucketGo` computes: the bucket gains the last `fuel` elements of
`pending` in reverse order, and `pending` loses them. -/
theorem getBucketGo_eq (fuel : Nat) :
    ∀ (bucket pending : List Annot),
      getBucketGo fuel bucket pending =
        (bucket ++ pending.reverse.take fuel, (pending.reverse.drop fuel).reverse) := by
  induction fuel with
  | zero =>
    intro b p
    simp [getBucketGo]
  | succ k ih =>
    intro b p
    induction p using List.reverseRecOn with
    | nil => simp [getBucketGo]
    | append_singleton l a _ =>
      rw [getBucketGo]
      simp only [List.getLast?_concat, List.dropLast_concat, List.reverse_append,
        List.reverse_cons, List.reverse_nil, List.nil_append, List.cons_append,
        List.take_succ_cons, List.drop_succ_cons]
      rw [ih]
      simp [List.append_assoc]

/-- `getBucket pending` is (reverse of the last 50, the rest). -/
theorem getBucket_eq (pending : List Annot) :
    getBucket pending =
      (pending.reverse.take 50, (pending.reverse.drop 50).reverse) := by
  simp [getBucket, getBucketGo_eq]

/-- One `checks.update` request body, reduced to the fields the claims are
about.  `owner`, `repo` and `check_run_id` are fixed per cycle and omitted;
`has_completed_at` records whether a `completed_at` timestamp is present
(its value is wall-clock time); `annotations := none` means the request
carries no annotations field at all. -/
structure UpdateReq where
  name : String
  status : String
  conclusion : Option String
  has_completed_at : Bool
  title : String
  summary : String
  text : String
  annotations : Option (List Annot)
deriving DecidableEq

/-- `globalMetricsCheck` (check.ts lines 180-200): the single update request
issued when there are no annotations. -/
def globalMetricsCheck (name rcaVersion : String) (file_metrics : List String) :
    List UpdateReq :=
  [{ name := name
     status := "completed"
     conclusion := some "success"
     has_completed_at := true
     title := name
     summary := ""
     text := getText file_metrics rcaVersion
     annotations := none }]

/-- `allMetricsCheck` (check.ts lines 203-242): the sequence of update
requests issued by the `while (annotations.length > 0)` loop.  Each request
carries the next `getBucket`; the status is `in_progress` while
`this.annotations` still has elements after the bucket was popped, and
`completed`/`success` with a `completed_at` on the last bucket. -/
def allMetricsCheck (name rcaVersion : String) (file_metrics : List String)
    (pending : List Annot) : List UpdateReq :=
  if h : (getBucket pending).1.length > 0 then
    (if (getBucket pending).2.length > 0 then
      { name := name
        status := "in_progress"
        conclusion := none
        has_completed_at := false
        title := name
        summary := ""
        text := getText file_metrics rcaVersion
        annotations := some (getBucket pending).1 }
     else
      { name := name
        status := "completed"
        conclusion := some "success"
        has_completed_at := true
        title := name
        summary := ""
        text := getText file_metrics rcaVersion
        annotations := some (getBucket pending).1 }) ::
    allMetricsCheck name rcaVersion file_metrics (getBucket pending).2
  else
    []
termination_by pending.length
decreasing_by
  have h1 : 0 < (getBucket pending).1.length := h
  rw [getBucket_eq] at h1 ⊢
  simp at h1 ⊢
  omega

/-- The fixed text of the cancellation request (check.ts line 257). -/
def cancelText : String :=
  "Check was cancelled due to unhandled error. Check the Action logs for details."

/-- `cancelCheck` (check.ts lines 245-265): the update request issued when an
unhandled exception interrupted the reporting phase. -/
def cancelCheck (name : String) : UpdateReq :=
  { name := name
    status := "completed"
    conclusion := some "cancelled"
    has_completed_at := true
    title := name
    summary := "Unhandled error"
    text := cancelText
    annotations := none }

/-- Models the builtin `JSON.stringify(json_metric, null, 2)` used by
`dumpToStdout`: its exact text is a property of the JavaScript runtime, not
of this repository; the claims depend only on one stdout entry being written
per stored record. -/
def stringifyRcaFile (r : RcaFile) : String :=
  "\x7b \"name\": \"" ++ r.name ++ "\" \x7d"

/-- `JSON.stringify(json_metric, null, 2)` applied to one stored entry: the
record rendering for a record value, the (abstracted) rendering of the
parsed non-record value otherwise. -/
def stringifyFileJson : FileJson → String
  | .record r => stringifyRcaFile r
  | .nonRec s => s

/-- `dumpToStdout` (check.ts lines 285-290): one pretty-printed entry per
deserialized JSON value in `this.file_jsons`, in order. -/
def dumpToStdout (file_jsons : List FileJson) : List String :=
  file_jsons.map stringifyFileJson

/-- The environment of one `executeCheck` cycle: whether the remote
`checks.create` call resolves, whether `process.env.GITHUB_HEAD_REF` is set
(the fork signal), whether the i-th `checks.update` of the reporting phase
resolves, and whether the `checks.update` inside `cancelCheck` resolves. -/
structure Env where
  createOk : Bool
  forkRef : Bool
  updateOk : Nat → Bool
  cancelOk : Bool

/-- The smallest index `i < n` with `updateOk i = false`: the first update
call of the reporting phase whose awaited promise rejects, if any. -/
def firstFailBelow (updateOk : Nat → Bool) : Nat → Option Nat
  | 0 => none
  | n + 1 =>
    match firstFailBelow updateOk n with
    | some i => some i
    | none => if updateOk n then none else some n

/-- The errors that can escape `executeCheck`: the `checks.create` failure,
the failure of the i-th reporting update, or the failure of the
cancellation update itself. -/
inductive JsError where
  | createErr
  | updateErr (i : Nat)
  | cancelErr
deriving DecidableEq

/-- The observable outcome of one `executeCheck` call: the `checks.update`
requests issued in order (including a failing one and the cancellation
request), the lines written to stdout, and the error it rethrows, if any. -/
structure Outcome where
  issued : List UpdateReq
  stdoutLines : List String
  err : Option JsError
deriving DecidableEq

/-- The update requests the reporting phase of `executeCheck` attempts in
order (check.ts lines 149-157): only `globalMetricsCheck` when
`this.annotations` is empty, the `allMetricsCheck` sequence otherwise. -/
def plannedCalls (st : CheckState) (name rcaVersion : String) : List UpdateReq :=
  if st.annotations.length == 0 then
    globalMetricsCheck name rcaVersion st.file_metrics
  else
    allMetricsCheck name rcaVersion st.file_metrics st.annotations

/-- `executeCheck` (check.ts lines 117-163).  If `checks.create` rejects:
with GITHUB_HEAD_REF set the catch branch dumps `file_jsons` to stdout and
returns normally, otherwise it rethrows.  After a successful create the
planned updates are awaited one at a time; the first rejected update aborts
the rest, `cancelCheck` issues one more update, and the original error is
rethrown — unless the cancellation update itself rejects, in which case its
error propagates instead. -/
def executeCheck (env : Env) (st : CheckState) (name rcaVersion : String) :
    Outcome :=
  if env.createOk = false then
    if env.forkRef then
      { issued := [], stdoutLines := dumpToStdout st.file_jsons, err := none }
    else
      { issued := [], stdoutLines := [], err := some .createErr }
  else
    let planned := plannedCalls st name rcaVersion
    match firstFailBelow env.updateOk planned.length with
    | none => { issued := planned, stdoutLines := [], err := none }
    | some i =>
      if env.cancelOk then
        { issued := planned.take (i + 1) ++ [cancelCheck name]
          stdoutLines := []
          err := some (.updateErr i) }
      else
        { issued := planned.take (i + 1) ++ [cancelCheck name]
          stdoutLines := []
          err := some .cancelErr }

/-- The error `run` (main.ts lines 40-78) lets escape: either whatever
`executeCheck` threw, or the distinct exit-code error raised afterwards. -/
inductive RunError where
  | report (e : JsError)
  | exitCode (code : Int)
deriving DecidableEq

/-- The message of the error thrown at main.ts line 77. -/
def exitCodeMessage (code : Int) : String :=
  "rust-code-analysis-check had exited with the " ++ toString code ++
  " exit code"

/-- The observable outcome of `run` (main.ts): the outcome of the reporting
cycle, and the error `run` raises, if any. -/
structure RunOutcome where
  check : Outcome
  err : Option RunError

/-- `run` (main.ts lines 40-78), after the subprocess finished with exit code
`rcaExitCode` and the stream was parsed into `st`: `executeCheck` is awaited
first, unconditionally; only if it returns normally and the exit code is
non-zero does `run` throw the exit-code error. -/
def run (rcaExitCode : Int) (env : Env) (st : CheckState)
    (name rcaVersion : String) : RunOutcome :=
  let oc := executeCheck env st name rcaVersion
  match oc.err with
  | some e => { check := oc, err := some (.report e) }
  | none =>
    if rcaExitCode ≠ 0 then
      { check := oc, err := some (.exitCode rcaExitCode) }
    else
      { check := oc, err := none }

/-- The non-root descendants of a `spaces` array in depth-first document
order: for each decodable element, the space itself and then, recursively,
its own descendants, in the order the array lists them.  This is the
reference traversal that `makeAnnotations` is checked against. -/
def preorderOver : Spaces → List RcaFile
  | .nil => []
  | .cons (.strOk (.mk nm sl el kd mt cs)) rest =>
    ((RcaFile.mk nm sl el kd mt cs) :: preorderOver cs) ++ preorderOver rest
  | .cons (.strBad _) rest => preorderOver rest
  | .cons (.objVal _) rest => preorderOver rest

/-- The non-root descendants of a record in depth-first document order. -/
def preorder (r : RcaFile) : List RcaFile :=
  preorderOver r.spaces

/-- A `spaces` array is well formed when every element is a JSON string that
decodes to a record whose own `spaces` array is again well formed — the
shape the rest of `parseJson` handles without throwing. -/
def wfSpaces : Spaces → Bool
  | .nil => true
  | .cons (.strOk (.mk _ _ _ _ _ cs)) rest => wfSpaces cs && wfSpaces rest
  | .cons (.strBad _) _ => false
  | .cons (.objVal _) _ => false

/-- A record is well formed when its `spaces` array is. -/
def wfFile (r : RcaFile) : Bool :=
  wfSpaces r.spaces

/-- The number of decodable nodes of a `spaces` array, counted recursively;
for a well-formed tree this is the number of non-root nodes. -/
def countSpaces : Spaces → Nat
  | .nil => 0
  | .cons (.strOk (.mk _ _ _ _ _ cs)) rest =>
    1 + countSpaces cs + countSpaces rest
  | .cons (.strBad _) rest => countSpaces rest
  | .cons (.objVal _) rest => countSpaces rest

/-- The number of non-root nodes of a record's tree. -/
def countNonRoot (r : RcaFile) : Nat :=
  countSpaces r.spaces

/-- An empty `spaces` array is `.nil`. -/
theorem Spaces.length_eq_zero {ss : Spaces} : ss.length = 0 ↔ ss = .nil := by
  cases ss <;> simp [Spaces.length]

/-- The preorder traversal visits exactly the countable nodes. -/
theorem preorderOver_length (ss : Spaces) :
    (preorderOver ss).length = countSpaces ss := by
  match ss with
  | .nil => simp [preorderOver, countSpaces]
  | .cons (.strOk (.mk nm sl el kd mt cs)) rest =>
    have ih1 := preorderOver_length cs
    have ih2 := preorderOver_length rest
    simp [preorderOver, countSpaces, ih1, ih2]
    omega
  | .cons (.strBad s) rest =>
    have ih2 := preorderOver_length rest
    simp [preorderOver, countSpaces, ih2]
  | .cons (.objVal r) rest =>
    have ih2 := preorderOver_length rest
    simp [preorderOver, countSpaces, ih2]

/-- Every preorder descendant is structurally smaller than the array it came
from: in particular the traversal never yields the root itself. -/
theorem sizeOf_lt_of_mem_preorderOver (ss : Spaces) :
    ∀ d ∈ preorderOver ss, sizeOf d < sizeOf ss := by
  match ss with
  | .nil => simp [preorderOver]
  | .cons (.strOk (.mk nm sl el kd mt cs)) rest =>
    have ih1 := sizeOf_lt_of_mem_preorderOver cs
    have ih2 := sizeOf_lt_of_mem_preorderOver rest
    intro d hd
    simp [preorderOver] at hd
    rcases hd with h | h | h
    · subst h
      simp
      omega
    · have := ih1 d h
      simp
      omega
    · have := ih2 d h
      simp
      omega
  | .cons (.strBad s) rest =>
    have ih2 := sizeOf_lt_of_mem_preorderOver rest
    intro d hd
    simp [preorderOver] at hd
    have := ih2 d hd
    simp
    omega
  | .cons (.objVal r) rest =>
    have ih2 := sizeOf_lt_of_mem_preorderOver rest
    intro d hd
    simp [preorderOver] at hd
    have := ih2 d hd
    simp
    omega

/-- On a well-formed `spaces` array, the `makeAnnotations` loop never throws
and appends exactly one annotation per preorder descendant, in preorder. -/
theorem makeAnnotationsOver_wf (ss : Spaces) :
    ∀ (acc : List Annot), wfSpaces ss = true →
      makeAnnotationsOver ss acc =
        (acc ++ (preorderOver ss).map mkAnnot, false) := by
  match ss with
  | .nil =>
    intro acc h
    simp [makeAnnotationsOver, preorderOver]
  | .cons (.strOk (.mk nm sl el kd mt cs)) rest =>
    intro acc h
    rw [wfSpaces] at h
    rw [Bool.and_eq_true] at h
    obtain ⟨hc, hr⟩ := h
    have ih1 := makeAnnotationsOver_wf cs
      (acc ++ [mkAnnot (.mk nm sl el kd mt cs)]) hc
    have ih2 := makeAnnotationsOver_wf rest
    rw [makeAnnotationsOver]
    simp only [makeAnnotations, RcaFile.spaces]
    by_cases hn : cs.length > 0
    · rw [if_pos hn]
      simp only [ih1]
      rw [ih2 _ hr]
      simp [preorderOver, List.append_assoc]
    · rw [if_neg hn]
      rw [ih2 _ hr]
      have hnil : cs = .nil := by
        rw [← Spaces.length_eq_zero]
        omega
      rw [preorderOver]
      rw [hnil]
      simp [preorderOver]
  | .cons (.strBad s) rest =>
    intro acc h
    rw [wfSpaces] at h
    simp at h
  | .cons (.objVal r) rest =>
    intro acc h
    rw [wfSpaces] at h
    simp at h

/-- The annotations carried by one update request, empty when the request has
no annotations field. -/
def bucketAnnots (r : UpdateReq) : List Annot :=
  r.annotations.getD []

/-- The concatenation, in submission order, of the annotation batches over a
sequence of update requests. -/
def issuedAnnots (reqs : List UpdateReq) : List Annot :=
  (reqs.map bucketAnnots).flatten

/-- With nothing pending, the update loop of `allMetricsCheck` never runs. -/
theorem allMetricsCheck_nil (n v : String) (fm : List String) :
    allMetricsCheck n v fm [] = [] := by
  rw [allMetricsCheck]
  simp [getBucket_eq]

/-- One unfolding of the `allMetricsCheck` loop while annotations are
pending: one request carrying the popped bucket, then the loop on the rest. -/
theorem allMetricsCheck_cons (n v : String) (fm : List String) (p : List Annot)
    (hp : 0 < p.length) :
    allMetricsCheck n v fm p =
      (if (p.reverse.drop 50).reverse.length > 0 then
        { name := n
          status := "in_progress"
          conclusion := none
          has_completed_at := false
          title := n
          summary := ""
          text := getText fm v
          annotations := some (p.reverse.take 50) }
       else
        { name := n
          status := "completed"
          conclusion := some "success"
          has_completed_at := true
          title := n
          summary := ""
          text := getText fm v
          annotations := some (p.reverse.take 50) }) ::
      allMetricsCheck n v fm ((p.reverse.drop 50).reverse) := by
  conv_lhs => rw [allMetricsCheck]
  rw [getBucket_eq]
  rw [dif_pos (by simp; omega)]

/-- While annotations are pending the loop issues at least one request. -/
theorem allMetricsCheck_ne_nil (n v : String) (fm : List String)
    (p : List Annot) (hp : 0 < p.length) :
    allMetricsCheck n v fm p ≠ [] := by
  rw [allMetricsCheck_cons n v fm p hp]
  simp

/-- The loop issues exactly one request per 50-element page. -/
theorem allMetricsCheck_length (n v : String) (fm : List String)
    (p : List Annot) :
    (allMetricsCheck n v fm p).length = (p.length + 49) / 50 := by
  by_cases hp : 0 < p.length
  · rw [allMetricsCheck_cons n v fm p hp]
    have ih := allMetricsCheck_length n v fm ((p.reverse.drop 50).reverse)
    simp [ih]
    omega
  · have hp0 : p = [] := by cases p <;> simp_all
    subst hp0
    simp [allMetricsCheck_nil]
termination_by p.length
decreasing_by
  simp
  omega

/-- Concatenating the buckets over the whole loop, in submission order,
yields the pending annotations in REVERSE extraction order: `getBucket` pops
from the end of the array. -/
theorem issuedAnnots_allMetrics (n v : String) (fm : List String)
    (p : List Annot) :
    issuedAnnots (allMetricsCheck n v fm p) = p.reverse := by
  by_cases hp : 0 < p.length
  · rw [allMetricsCheck_cons n v fm p hp]
    have ih := issuedAnnots_allMetrics n v fm ((p.reverse.drop 50).reverse)
    by_cases hrest : (p.reverse.drop 50).reverse.length > 0
    · rw [if_pos hrest]
      simp [issuedAnnots, bucketAnnots] at ih ⊢
      rw [ih]
      exact List.take_append_drop 50 p.reverse
    · rw [if_neg hrest]
      simp [issuedAnnots, bucketAnnots] at ih ⊢
      rw [ih]
      exact List.take_append_drop 50 p.reverse
  · have hp0 : p = [] := by cases p <;> simp_all
    subst hp0
    simp [allMetricsCheck_nil, issuedAnnots]
termination_by p.length
decreasing_by
  simp
  omega

/-- Every request of the loop carries a bucket of at most 50 annotations. -/
theorem allMetricsCheck_batches (n v : String) (fm : List String)
    (p : List Annot) :
    ∀ r ∈ allMetricsCheck n v fm p,
      ∃ b, r.annotations = some b ∧ b.length ≤ 50 := by
  by_cases hp : 0 < p.length
  · rw [allMetricsCheck_cons n v fm p hp]
    intro r hr
    rcases List.mem_cons.mp hr with h | h
    · subst h
      split
      · exact ⟨p.reverse.take 50, rfl, by simp⟩
      · exact ⟨p.reverse.take 50, rfl, by simp⟩
    · exact allMetricsCheck_batches n v fm ((p.reverse.drop 50).reverse) r h
  · have hp0 : p = [] := by cases p <;> simp_all
    subst hp0
    simp [allMetricsCheck_nil]
termination_by p.length
decreasing_by
  simp
  omega

/-- Every request of the loop except the last carries status `in_progress`
and no conclusion. -/
theorem allMetricsCheck_dropLast (n v : String) (fm : List String)
    (p : List Annot) :
    ∀ r ∈ (allMetricsCheck n v fm p).dropLast,
      r.status = "in_progress" ∧ r.conclusion = none := by
  by_cases hp : 0 < p.length
  · rw [allMetricsCheck_cons n v fm p hp]
    by_cases hrest : (p.reverse.drop 50).reverse.length > 0
    · rw [if_pos hrest]
      have hne := allMetricsCheck_ne_nil n v fm ((p.reverse.drop 50).reverse) hrest
      intro r hr
      rw [List.dropLast_cons_of_ne_nil hne] at hr
      rcases List.mem_cons.mp hr with h | h
      · subst h
        exact ⟨rfl, rfl⟩
      · exact allMetricsCheck_dropLast n v fm ((p.reverse.drop 50).reverse) r h
    · rw [if_neg hrest]
      have hnil : (p.reverse.drop 50).reverse = [] :=
        List.length_eq_zero.mp (by omega)
      rw [hnil, allMetricsCheck_nil]
      simp
  · have hp0 : p = [] := by cases p <;> simp_all
    subst hp0
    simp [allMetricsCheck_nil]
termination_by p.length
decreasing_by
  simp
  omega

/-- The last request of the loop carries status `completed`, conclusion
`success` and a completion timestamp. -/
theorem allMetricsCheck_last (n v : String) (fm : List String)
    (p : List Annot) (hp : 0 < p.length) :
    ∃ r, (allMetricsCheck n v fm p).getLast? = some r ∧
      r.status = "completed" ∧ r.conclusion = some "success" ∧
      r.has_completed_at = true := by
  by_cases hrest : (p.reverse.drop 50).reverse.length > 0
  · obtain ⟨r, hr, h1, h2, h3⟩ :=
      allMetricsCheck_last n v fm ((p.reverse.drop 50).reverse) hrest
    refine ⟨r, ?_, h1, h2, h3⟩
    rw [allMetricsCheck_cons n v fm p hp]
    rcases hcalls : allMetricsCheck n v fm ((p.reverse.drop 50).reverse) with
      _ | ⟨q, qs⟩
    · exact absurd hcalls (allMetricsCheck_ne_nil n v fm _ hrest)
    · rw [hcalls] at hr
      rw [List.getLast?_cons_cons]
      exact hr
  · rw [allMetricsCheck_cons n v fm p hp]
    rw [if_neg hrest]
    have hnil : (p.reverse.drop 50).reverse = [] :=
      List.length_eq_zero.mp (by omega)
    rw [hnil, allMetricsCheck_nil]
    exact ⟨_, List.getLast?_singleton _, rfl, rfl, rfl⟩
termination_by p.length
decreasing_by
  simp
  omega

/-- When every update promise resolves, no update call fails. -/
theorem firstFailBelow_none (f : Nat → Bool) (hf : ∀ i, f i = true) :
    ∀ m, firstFailBelow f m = none := by
  intro m
  induction m with
  | zero => rfl
  | succ k ih =>
    rw [firstFailBelow, ih]
    simp [hf k]

/-- Whatever happens to its annotations, a successfully parsed line appends
its record to `file_jsons`. -/
theorem parseJson_valid_file_jsons (st : CheckState) (r : RcaFile) :
    (parseJson st (.valid r)).1.file_jsons = st.file_jsons ++ [.record r] := by
  rw [parseJson]
  by_cases hsp : r.spaces.length > 0
  · rw [if_pos hsp]
  · rw [if_neg hsp]

/-- Whatever happens to its annotations, a successfully parsed line appends
its rendered block to `file_metrics`. -/
theorem parseJson_valid_file_metrics (st : CheckState) (r : RcaFile) :
    (parseJson st (.valid r)).1.file_metrics =
      st.file_metrics ++ [getFileMetrics r] := by
  rw [parseJson]
  by_cases hsp : r.spaces.length > 0
  · rw [if_pos hsp]
  · rw [if_neg hsp]

/-- The records carried by the lines that parse to a full record, in
stream order. -/
def validRecords : List Line → List RcaFile
  | [] => []
  | .valid r :: rest => r :: validRecords rest
  | .invalid _ :: rest => validRecords rest
  | .jsonNonRecord _ :: rest => validRecords rest
  | .jsonNoSpaces _ _ _ :: rest => validRecords rest

/-- After a stream was consumed without any escaping exception, `file_jsons`
holds exactly the successfully parsed records, in stream order (a line that
parses to a non-record value always throws, so none occurred). -/
theorem processLines_file_jsons (lines : List Line) :
    ∀ (st0 st : CheckState), processLines st0 lines = (st, false) →
      st.file_jsons = st0.file_jsons ++ (validRecords lines).map FileJson.record := by
  induction lines with
  | nil =>
    intro st0 st h
    rw [processLines] at h
    rw [Prod.mk.injEq] at h
    rw [← h.1]
    simp [validRecords]
  | cons l rest ih =>
    intro st0 st h
    rw [processLines] at h
    rcases hpj : parseJson st0 l with ⟨st1, threw⟩
    rw [hpj] at h
    cases threw with
    | true =>
      rw [Prod.mk.injEq] at h
      exact absurd h.2 (by simp)
    | false =>
      have hrec : processLines st1 rest = (st, false) := h
      have hst := ih st1 st hrec
      cases l with
      | invalid s =>
        have h0 : parseJson st0 (.invalid s) = (st0, false) := rfl
        rw [h0, Prod.mk.injEq] at hpj
        rw [validRecords, hst, ← hpj.1]
      | jsonNonRecord s =>
        have h0 : parseJson st0 (.jsonNonRecord s) =
            ({ st0 with file_jsons := st0.file_jsons ++ [.nonRec s] },
              true) := rfl
        rw [h0, Prod.mk.injEq] at hpj
        exact absurd hpj.2 (by simp)
      | jsonNoSpaces s nm mt =>
        have h0 : parseJson st0 (.jsonNoSpaces s nm mt) =
            ({ st0 with
               file_jsons := st0.file_jsons ++ [.nonRec s]
               file_metrics := st0.file_metrics ++
                 [getFileMetrics (.mk nm 0 0 "" mt .nil)] }, true) := rfl
        rw [h0, Prod.mk.injEq] at hpj
        exact absurd hpj.2 (by simp)
      | valid r =>
        have hfj : st1.file_jsons = st0.file_jsons ++ [.record r] := by
          have h2 := parseJson_valid_file_jsons st0 r
          rw [hpj] at h2
          exact h2
        rw [validRecords, hst, hfj]
        simp

/-- Sample metrics bundle used by the concrete witnesses below. -/
def m0 : Metrics :=
  { nargs := 2
    nexits := 1
    cognitive := 0
    cyclomatic := { sum := 1, average := 1 }
    halstead :=
      { n1 := 1, N1 := 2, n2 := 3, N2 := 4, length := 6,
        estimated_program_length := 5, purity_ratio := 1, vocabulary := 4,
        volume := 12, difficulty := 1, level := 1, effort := 12, time := 1,
        bugs := 0 }
    loc := { sloc := 10, ploc := 10, lloc := 8, cloc := 1, blank := 1 }
    nom := { functions := 1, closures := 0, total := 1 }
    mi := { mi_original := 100, mi_sei := 90, mi_visual_studio := 80 } }

/-- An environment where the create call and every update call resolve. -/
def envAllOk : Env :=
  { createOk := true, forkRef := false, updateOk := fun _ => true,
    cancelOk := true }

/-- A concrete annotation, as extracted for a space named "f". -/
def annA : Annot :=
  { path := "f", start_line := 1, end_line := 2,
    annotation_level := "notice", title := "f", message := "Hello" }

/-- A concrete annotation, as extracted for a space named "g". -/
def annB : Annot :=
  { path := "g", start_line := 3, end_line := 4,
    annotation_level := "notice", title := "g", message := "Hello" }

/-- A concrete annotation, as extracted for a space named "h". -/
def annC : Annot :=
  { path := "h", start_line := 5, end_line := 6,
    annotation_level := "notice", title := "h", message := "Hello" }

/-- A runner state with three pending annotations, in extraction order. -/
def st3 : CheckState :=
  { annotations := [annA, annB, annC], file_metrics := [], file_jsons := [] }

/-- C1: in a cycle where the create call and all update calls succeed, an
empty pending list yields exactly one update call with status `completed`
and conclusion `success`; a pending list of length L > 0 yields exactly
ceil(L/50) update calls, each carrying at most 50 annotations, with L
annotations submitted in total, every call but the last `in_progress` and
the last `completed`/`success`. -/
theorem c1_update_call_schedule (env : Env) (st : CheckState) (n v : String)
    (hc : env.createOk = true) (hu : ∀ i, env.updateOk i = true) :
    (st.annotations = [] →
      (executeCheck env st n v).issued.length = 1 ∧
      ∀ r ∈ (executeCheck env st n v).issued,
        r.status = "completed" ∧ r.conclusion = some "success") ∧
    (0 < st.annotations.length →
      (executeCheck env st n v).issued.length =
        (st.annotations.length + 49) / 50 ∧
      (∀ r ∈ (executeCheck env st n v).issued,
        ∃ b, r.annotations = some b ∧ b.length ≤ 50) ∧
      (issuedAnnots (executeCheck env st n v).issued).length =
        st.annotations.length ∧
      (∀ r ∈ (executeCheck env st n v).issued.dropLast,
        r.status = "in_progress" ∧ r.conclusion = none) ∧
      (∃ r, (executeCheck env st n v).issued.getLast? = some r ∧
        r.status = "completed" ∧ r.conclusion = some "success" ∧
        r.has_completed_at = true)) := by
  have hoc : executeCheck env st n v =
      { issued := plannedCalls st n v, stdoutLines := [], err := none } := by
    rw [executeCheck, hc]
    simp [firstFailBelow_none env.updateOk hu]
  have hIss : (executeCheck env st n v).issued = plannedCalls st n v := by
    rw [hoc]
  rw [hIss]
  constructor
  · intro hA
    have hplan : plannedCalls st n v =
        globalMetricsCheck n v st.file_metrics := by
      rw [plannedCalls, hA]
      simp
    rw [hplan]
    constructor
    · simp [globalMetricsCheck]
    · intro r hr
      simp [globalMetricsCheck] at hr
      rw [hr]
      exact ⟨rfl, rfl⟩
  · intro hA
    have hplan : plannedCalls st n v =
        allMetricsCheck n v st.file_metrics st.annotations := by
      rw [plannedCalls]
      have hne : (st.annotations.length == 0) = false := by
        simp only [beq_eq_false_iff_ne, ne_eq]
        omega
      rw [hne]
      simp
    rw [hplan]
    refine ⟨?_, ?_, ?_, ?_, ?_⟩
    · rw [allMetricsCheck_length]
    · exact allMetricsCheck_batches n v st.file_metrics st.annotations
    · rw [issuedAnnots_allMetrics]
      simp
    · exact allMetricsCheck_dropLast n v st.file_metrics st.annotations
    · exact allMetricsCheck_last n v st.file_metrics st.annotations hA

/-- Witness for C1 at a concrete cycle: three pending annotations give one
update call (ceil(3/50) = 1). -/
theorem c1_update_call_schedule_witness :
    0 < st3.annotations.length ∧
    (executeCheck envAllOk st3 "rca" "0.0.1").issued.length = 1 := by
  have h := c1_update_call_schedule envAllOk st3 "rca" "0.0.1" rfl (fun i => rfl)
  refine ⟨by decide, ?_⟩
  have h2 := (h.2 (by decide)).1
  rw [h2]
  decide

/-- C2 (code bug): `getBucket` pops from the END of the pending array, so
concatenating the submitted batches yields the annotations in reverse
extraction order, not extraction order; at the concrete input [annA, annB]
the submission order is [annB, annA]. -/
theorem c2_buckets_reverse_extraction_order :
    (∀ (n v : String) (fm : List String) (p : List Annot),
      issuedAnnots (allMetricsCheck n v fm p) = p.reverse) ∧
    issuedAnnots (allMetricsCheck "rca" "0.0.1" [] [annA, annB]) =
      [annB, annA] ∧
    [annB, annA] ≠ [annA, annB] := by
  refine ⟨issuedAnnots_allMetrics, ?_, by decide⟩
  rw [issuedAnnots_allMetrics]
  rfl

/-- A leaf space named "g". -/
def c3g : RcaFile := .mk "g" 4 6 "closure" m0 .nil

/-- A space named "f" with one nested space. -/
def c3f : RcaFile := .mk "f" 2 8 "function" m0 (.cons (.strOk c3g) .nil)

/-- A top-level record with a depth-2 space tree (2 non-root nodes). -/
def c3top : RcaFile := .mk "b.rs" 1 20 "unit" m0 (.cons (.strOk c3f) .nil)

/-- C3: on a record whose spaces tree decodes, annotation extraction throws
nothing and produces exactly one annotation per non-root descendant, in
depth-first document order, none for the root, each copying the
descendant's start and end lines. -/
theorem c3_annotations_per_descendant (r : RcaFile) (h : wfFile r = true) :
    makeAnnotations r [] = ((preorder r).map mkAnnot, false) ∧
    (preorder r).length = countNonRoot r ∧
    (∀ d ∈ preorder r, d ≠ r) ∧
    (∀ d ∈ preorder r,
      (mkAnnot d).start_line = d.start_line ∧
      (mkAnnot d).end_line = d.end_line ∧
      (mkAnnot d).title = d.name) := by
  refine ⟨?_, ?_, ?_, ?_⟩
  · rw [makeAnnotations_eq]
    rw [makeAnnotationsOver_wf r.spaces [] h]
    simp [preorder]
  · rw [preorder, countNonRoot]
    exact preorderOver_length r.spaces
  · intro d hd
    have h1 := sizeOf_lt_of_mem_preorderOver r.spaces d hd
    have h2 := sizeOf_spaces_lt r
    intro he
    rw [he] at h1
    omega
  · intro d hd
    exact ⟨rfl, rfl, rfl⟩

/-- Witness for C3 at a concrete depth-2 tree with 2 non-root nodes. -/
theorem c3_annotations_per_descendant_witness :
    wfFile c3top = true ∧
    makeAnnotations c3top [] = ((preorder c3top).map mkAnnot, false) ∧
    (preorder c3top).length = 2 := by
  have h := c3_annotations_per_descendant c3top (by decide)
  refine ⟨by decide, h.1, ?_⟩
  rw [h.2.1]
  decide

/-- A leaf space named "foo" under the file record "a.rs". -/
def c4child : RcaFile := .mk "foo" 3 5 "function" m0 .nil

/-- A top-level record named "a.rs" with the single space "foo". -/
def c4file : RcaFile := .mk "a.rs" 1 10 "unit" m0 (.cons (.strOk c4child) .nil)

/-- C4 (code bug): at the concrete input, the annotation extracted for space
"foo" of file "a.rs" carries path "foo" — the space's own name, not the
top-level record's name "a.rs" — and its message is the constant
placeholder "Hello", which `getAnnotationMetrics` returns for EVERY metrics
bundle (the rendering of the metrics is commented out in the source), so
the message is not a summary of the descendant's metrics. -/
theorem c4_annot_fields :
    makeAnnotations c4file [] =
      ([{ path := "foo", start_line := 3, end_line := 5,
          annotation_level := "notice", title := "foo",
          message := "Hello" }], false) ∧
    (∀ m : Metrics, getAnnotationMetrics m = "Hello") ∧
    c4file.name = "a.rs" ∧
    ("foo" : String) ≠ "a.rs" := by
  exact ⟨by decide, fun m => rfl, rfl, by decide⟩

/-- C5 (code bug): the claim holds only for lines that fail `JSON.parse`
itself — those are discarded silently with every accumulator unchanged.
It fails on a line like "\x7b\x7d" that parses as JSON but not to a
record: `parseJson` pushes the parsed value to `file_jsons` and then
throws a TypeError outside the try/catch (rendering the block
dereferences the undefined `metrics` field), so the line is neither
error-free nor state-preserving; a value that renders but lacks a
`spaces` array throws after mutating both `file_jsons` and
`file_metrics`. -/
theorem c5_json_non_record_throws (st : CheckState) (s v nm : String)
    (mt : Metrics) :
    (parseJson st (.jsonNonRecord "\x7b\x7d")).2 = true ∧
    (parseJson st (.jsonNonRecord "\x7b\x7d")).1.file_jsons =
      st.file_jsons ++ [.nonRec "\x7b\x7d"] ∧
    (parseJson st (.jsonNonRecord "\x7b\x7d")).1.file_jsons ≠
      st.file_jsons ∧
    (parseJson st (.jsonNonRecord "\x7b\x7d")).1.file_metrics =
      st.file_metrics ∧
    (parseJson st (.jsonNoSpaces s nm mt)).2 = true ∧
    (parseJson st (.jsonNoSpaces s nm mt)).1.file_metrics ≠
      st.file_metrics ∧
    parseJson st (.invalid s) = (st, false) ∧
    getText (parseJson st (.invalid s)).1.file_metrics v =
      getText st.file_metrics v := by
  refine ⟨rfl, rfl, ?_, rfl, rfl, ?_, rfl, rfl⟩
  · intro h
    have h2 := congrArg List.length h
    simp [parseJson] at h2
  · intro h
    have h2 := congrArg List.length h
    simp [parseJson] at h2

/-- A child space with a name that occurs nowhere in the parent's block. -/
def c6child : RcaFile := .mk "qqchildqq" 2 3 "function" m0 .nil

/-- A top-level record with one child space. -/
def c6parent : RcaFile := .mk "a.rs" 1 10 "unit" m0 (.cons (.strOk c6child) .nil)

/-- The same record with no children. -/
def c6parentNoKids : RcaFile := .mk "a.rs" 1 10 "unit" m0 .nil

/-- C6 (code bug): the spec mandates that the block of a record with
non-empty children contains, after its own metrics, a nested spaces
section with one sub-block per child, and that a childless record
produces no spaces section.  The current `getFileMetrics` ignores the
`spaces` field: it renders the record with one child to EXACTLY the same
block as the record without children, so the first block contains a
per-child spaces section only if the second does — no reading of
"contains a spaces section" can hold of one and fail of the other, and
the mandated rendering is absent. -/
theorem c6_child_not_rendered_cex :
    c6parent.spaces.length > 0 ∧
    c6parentNoKids.spaces.length = 0 ∧
    getFileMetrics c6parent = getFileMetrics c6parentNoKids ∧
    ∀ P : String → Prop,
      ¬ (P (getFileMetrics c6parent) ∧
         ¬ P (getFileMetrics c6parentNoKids)) := by
  refine ⟨by decide, rfl, rfl, ?_⟩
  intro P h
  exact h.2 h.1

/-- Supporting fact behind the C6 divergence: the rendered block of a
record is a function of its name and its own metrics only — the `spaces`
field never reaches the template. -/
theorem getFileMetrics_ignores_spaces (n : String) (sl el : Int)
    (k : String) (m : Metrics) (sp sq : Spaces) :
    getFileMetrics (.mk n sl el k m sp) = getFileMetrics (.mk n sl el k m sq) :=
  rfl

/-- An environment where the create call fails and the fork signal is set. -/
def envForkFail : Env :=
  { createOk := false, forkRef := true, updateOk := fun _ => true,
    cancelOk := true }

/-- C7: when the create call fails with the fork signal present, the cycle
issues zero update calls, writes one pretty-printed stdout entry per
successfully parsed top-level record, and raises nothing; when the create
call fails with the fork signal absent, the creation error propagates and
zero update calls are issued. -/
theorem c7_create_failure_paths (lines : List Line) (st : CheckState)
    (env : Env) (n v : String)
    (hproc : processLines emptyState lines = (st, false))
    (hc : env.createOk = false) :
    (env.forkRef = true →
      executeCheck env st n v =
        { issued := [],
          stdoutLines := (validRecords lines).map stringifyRcaFile,
          err := none }) ∧
    (env.forkRef = false →
      executeCheck env st n v =
        { issued := [], stdoutLines := [], err := some .createErr }) := by
  have hfj : st.file_jsons = (validRecords lines).map FileJson.record := by
    have h2 := processLines_file_jsons lines emptyState st hproc
    simpa [emptyState] using h2
  constructor
  · intro hf
    rw [executeCheck, hc]
    simp [hf, dumpToStdout, hfj, List.map_map, Function.comp,
      stringifyFileJson]
  · intro hf
    rw [executeCheck, hc]
    simp [hf]

/-- A record for the C7 witness stream. -/
def recC7 : RcaFile := .mk "a.rs" 1 10 "unit" m0 .nil

/-- A two-line stream: one record line, one diagnostic line. -/
def c7lines : List Line := [.valid recC7, .invalid "diagnostic output"]

/-- The runner state after consuming `c7lines`. -/
def stC7 : CheckState :=
  { annotations := [], file_metrics := [getFileMetrics recC7],
    file_jsons := [.record recC7] }

/-- Witness for C7 on a concrete stream and fork-signalled environment. -/
theorem c7_create_failure_paths_witness :
    executeCheck envForkFail stC7 "rca" "0.0.1" =
      { issued := [],
        stdoutLines := (validRecords c7lines).map stringifyRcaFile,
        err := none } := by
  have h := c7_create_failure_paths c7lines stC7 envForkFail "rca" "0.0.1"
    rfl rfl
  exact h.1 rfl

/-- C8: after a successful create, if the i-th update call of the reporting
phase fails and the cancellation update succeeds, exactly one additional
update call is issued — the cancellation request, carrying status
`completed`, conclusion `cancelled`, a completion timestamp, summary
"Unhandled error" and the fixed cancellation text — and the ORIGINAL update
error is then rethrown to the caller. -/
theorem c8_cancel_on_update_failure (env : Env) (st : CheckState)
    (n v : String) (i : Nat) (hc : env.createOk = true)
    (hf : firstFailBelow env.updateOk (plannedCalls st n v).length = some i)
    (hcan : env.cancelOk = true) :
    executeCheck env st n v =
      { issued := (plannedCalls st n v).take (i + 1) ++ [cancelCheck n],
        stdoutLines := [], err := some (.updateErr i) } ∧
    (cancelCheck n).status = "completed" ∧
    (cancelCheck n).conclusion = some "cancelled" ∧
    (cancelCheck n).has_completed_at = true ∧
    (cancelCheck n).summary = "Unhandled error" ∧
    (cancelCheck n).text = cancelText := by
  refine ⟨?_, rfl, rfl, rfl, rfl, rfl⟩
  rw [executeCheck, hc]
  simp [hf, hcan]

/-- An environment where the create call succeeds and every update fails. -/
def envUpdFail : Env :=
  { createOk := true, forkRef := false, updateOk := fun _ => false,
    cancelOk := true }

/-- Witness for C8: the single planned update fails, one cancellation
request follows, the update error is rethrown. -/
theorem c8_cancel_on_update_failure_witness :
    executeCheck envUpdFail emptyState "rca" "0.0.1" =
      { issued := (plannedCalls emptyState "rca" "0.0.1").take 1 ++
          [cancelCheck "rca"],
        stdoutLines := [], err := some (.updateErr 0) } := by
  have h := c8_cancel_on_update_failure envUpdFail emptyState "rca" "0.0.1" 0
    rfl (by decide) rfl
  exact h.1

/-- C9: the reporting cycle runs regardless of the subprocess exit code (the
run outcome embeds the unchanged `executeCheck` outcome); a non-zero exit
code always makes the run fail; when the reporting cycle raised nothing, a
non-zero exit code raises the exit-code error afterwards — whose message
contains the failing exit code — and a zero exit code raises nothing. -/
theorem c9_exit_code_after_reporting (code : Int) (env : Env)
    (st : CheckState) (n v : String) :
    (run code env st n v).check = executeCheck env st n v ∧
    (code ≠ 0 → (run code env st n v).err ≠ none) ∧
    ((executeCheck env st n v).err = none →
      (code ≠ 0 → (run code env st n v).err = some (.exitCode code)) ∧
      (code = 0 → (run code env st n v).err = none)) ∧
    (toString code).data <:+: (exitCodeMessage code).data := by
  refine ⟨?_, ?_, ?_, ?_⟩
  · simp only [run]
    rcases hoc : (executeCheck env st n v).err with _ | e
    · simp [hoc]
      split <;> rfl
    · simp [hoc]
  · intro hcode
    simp only [run]
    rcases hoc : (executeCheck env st n v).err with _ | e
    · simp [hoc, hcode]
    · simp [hoc]
  · intro hnone
    constructor
    · intro hcode
      simp [run, hnone, hcode]
    · intro hcode
      simp [run, hnone, hcode]
  · refine ⟨"rust-code-analysis-check had exited with the ".data,
      " exit code".data, ?_⟩
    rw [exitCodeMessage, String.data_append, String.data_append]

/-- Witness for C9: exit code 3 with a clean reporting cycle raises the
exit-code error. -/
theorem c9_exit_code_after_reporting_witness :
    (run 3 envAllOk emptyState "rca" "0.0.1").err = some (.exitCode 3) := by
  have h := c9_exit_code_after_reporting 3 envAllOk emptyState "rca" "0.0.1"
  exact (h.2.2.1 rfl).1 (by decide)

/-- A leaf space record. -/
def c10obj : RcaFile := .mk "foo" 3 5 "function" m0 .nil

/-- A syntactically valid record line whose `spaces` array holds a JSON
OBJECT (as rust-code-analysis-cli emits) rather than a JSON string. -/
def c10file : RcaFile := .mk "a.rs" 1 10 "unit" m0 (.cons (.objVal c10obj) .nil)

/-- The same record with the space element as a JSON string encoding. -/
def c10good : RcaFile := .mk "a.rs" 1 10 "unit" m0 (.cons (.strOk c10obj) .nil)

/-- C10: there is a valid record line with a non-empty `spaces` array of
JSON objects on which `parseJson` raises: `makeAnnotations` applies
`JSON.parse` to each element outside the try/catch, and `JSON.parse` of an
object throws.  The same tree with string-encoded elements is accepted, so
the throw is exactly the object-vs-string distinction. -/
theorem c10_object_space_throws :
    c10file.spaces.length > 0 ∧
    (parseJson emptyState (.valid c10file)).2 = true ∧
    (parseJson emptyState (.valid c10good)).2 = false := by
  exact ⟨by decide, rfl, rfl⟩

end RcaCheck
